import Mathlib

/-!
Shallow embedding of the LamportLedger repository (`src/blockchain.py`,
`src/server.py`, `src/client.py`) and proofs about it.

Conventions of the embedding:
* Python `int` is modelled as `Int`, Python `float` amounts/balances as exact
  rationals `ℚ` (IEEE rounding is not modelled).
* `hashlib.sha256(json.dumps({transaction: to_dict, previous_hash}, sort_keys=True))`
  is modelled by an abstract digest function `sha : Transaction → String → String`
  applied to the full transaction record (all seven fields, as in `to_dict`)
  and the previous hash; all theorems hold for every such function.
* Python's stable `list.sort(key=...)` is modelled by `List.insertionSort`,
  which is stable, hence extensionally identical to the source's sort.
* A Python dict is modelled as an association list with distinct keys.
* Wall-clock timestamps (`get_current_time()`) are passed in as `String`
  parameters.
-/

namespace LamportLedger

/-- `Transaction` from `blockchain.py`: seven fields, `to_dict` exposes all of
them. -/
structure Transaction where
  sender_id : Int
  recipient_id : Int
  amount : ℚ
  sender_logic_clock : Int
  timestamp : String
  status : String
  num_replies : Int
  deriving DecidableEq, Repr

/-- `Transaction.__eq__`: equality by the five identity fields; `status` and
`num_replies` do not participate. -/
def txEqB (a b : Transaction) : Bool :=
  decide (a.sender_id = b.sender_id)
    && decide (a.recipient_id = b.recipient_id)
    && decide (a.amount = b.amount)
    && decide (a.sender_logic_clock = b.sender_logic_clock)
    && decide (a.timestamp = b.timestamp)

/-- The Lamport order used by every `sort(key=lambda t: (t.sender_logic_clock,
t.sender_id))` in the source: lexicographic on (clock, sender id). -/
def txLe (a b : Transaction) : Prop :=
  a.sender_logic_clock < b.sender_logic_clock
    ∨ (a.sender_logic_clock = b.sender_logic_clock ∧ a.sender_id ≤ b.sender_id)

instance : DecidableRel txLe := fun a b => by
  unfold txLe
  exact inferInstance

instance : IsTotal Transaction txLe := by
  constructor
  intro a b
  unfold txLe
  omega

instance : IsTrans Transaction txLe := by
  constructor
  intro a b c hab hbc
  unfold txLe at *
  omega

/-- Python's stable sort of a transaction list by `(sender_logic_clock,
sender_id)`; insertion sort is stable, so it is extensionally the same
function. -/
def sortTxs (l : List Transaction) : List Transaction :=
  List.insertionSort txLe l

/-- `Block` from `blockchain.py` (the derived `next_block` forward pointer is
not carried; it is recomputed from the sequence on every resort). -/
structure Block where
  transaction : Transaction
  previous_hash : String
  deriving DecidableEq, Repr

/-- `hashlib.sha256(b"").hexdigest()`: the digest of the empty string that
`Block.__init__` installs when no previous hash is given, and that
`resort_blocks` forces onto the head block. -/
def EMPTY_SHA256 : String :=
  "e3b0c44298fc1c149afbf4c8996fb92427ae41e4649b934ca495991b7852b855"

/-- `Block.hash`: the digest of the canonical serialization of
`{transaction: self.transaction.to_dict(), previous_hash: self.previous_hash}`,
for the abstract digest function `sha`. -/
def blockHash (sha : Transaction → String → String) (b : Block) : String :=
  sha b.transaction b.previous_hash

/-- The Lamport order lifted to blocks, as in
`chain.sort(key=lambda b: (b.transaction.sender_logic_clock, b.transaction.sender_id))`. -/
def blockLe (a b : Block) : Prop :=
  txLe a.transaction b.transaction

instance : DecidableRel blockLe := fun a b => by
  unfold blockLe
  exact inferInstance

instance : IsTotal Block blockLe := by
  constructor
  intro a b
  exact IsTotal.total (r := txLe) a.transaction b.transaction

instance : IsTrans Block blockLe := by
  constructor
  intro a b c hab hbc
  exact IsTrans.trans (r := txLe) _ _ _ hab hbc

/-- The front-to-back sweep of `resort_blocks` (`blockchain.py` lines 116-118):
each block's `previous_hash` is overwritten with the hash of the block before
it, where the predecessor has already received its own new `previous_hash`. -/
def relink (sha : Transaction → String → String) (prev : Block) :
    List Block → List Block
  | [] => []
  | b :: t =>
    let b' : Block := { b with previous_hash := blockHash sha prev }
    b' :: relink sha b' t

/-- `BlockChain.resort_blocks`: stable-sort the chain by Lamport order, force
the head's `previous_hash` to the empty digest, then sweep front-to-back
recomputing every link. -/
def resort_blocks (sha : Transaction → String → String) (c : List Block) :
    List Block :=
  match List.insertionSort blockLe c with
  | [] => []
  | h :: t =>
    let h' : Block := { h with previous_hash := EMPTY_SHA256 }
    h' :: relink sha h' t

/-- `BlockChain.add_transaction`: append a block built from the transaction
(`Block.__init__` fills `previous_hash` with the empty digest) and resort. -/
def add_transaction (sha : Transaction → String → String) (tx : Transaction)
    (c : List Block) : List Block :=
  resort_blocks sha (c ++ [⟨tx, EMPTY_SHA256⟩])

/-- Check that successive blocks are hash-linked, starting from a given
predecessor: each block's `previous_hash` must be the digest of the block
before it (invariant H1 of the spec). -/
def linkedFrom (sha : Transaction → String → String) (prev : Block) :
    List Block → Bool
  | [] => true
  | b :: t => (b.previous_hash == blockHash sha prev) && linkedFrom sha b t

/-- Invariants H1 and H2 together: the head block carries the empty digest and
every later block carries the digest of its predecessor. -/
def linkOK (sha : Transaction → String → String) (c : List Block) : Bool :=
  match c with
  | [] => true
  | h :: t => (h.previous_hash == EMPTY_SHA256) && linkedFrom sha h t

lemma relink_map_transaction (sha : Transaction → String → String) :
    ∀ (l : List Block) (prev : Block),
      (relink sha prev l).map Block.transaction = l.map Block.transaction := by
  intro l
  induction l with
  | nil => intro prev; rfl
  | cons b t ih =>
    intro prev
    simp [relink, ih]

lemma linkedFrom_relink (sha : Transaction → String → String) :
    ∀ (l : List Block) (prev : Block),
      linkedFrom sha prev (relink sha prev l) = true := by
  intro l
  induction l with
  | nil => intro prev; rfl
  | cons b t ih =>
    intro prev
    simp only [relink, linkedFrom, Bool.and_eq_true, beq_iff_eq]
    exact ⟨trivial, ih _⟩

lemma sorted_blocks_iff_map (l : List Block) :
    List.Sorted blockLe l ↔ List.Sorted txLe (l.map Block.transaction) := by
  unfold List.Sorted
  rw [List.pairwise_map]
  rfl

/-- `list.remove(x)` guarded by `if x in list`: drop the first element equal to
`tx` under `Transaction.__eq__`, or leave the list unchanged when none is. -/
def eraseFirstTx : List Transaction → Transaction → List Transaction
  | [], _ => []
  | x :: xs, tx => if txEqB x tx then xs else x :: eraseFirstTx xs tx

/-- Per-peer state of `Client` (`client.py`): identity, Lamport clock, the
other-clients address map, the local ledger and the two protocol queues. -/
structure ClientState where
  id : Int
  logic_clock : Int
  other_clients : List (Int × String)
  chain : List Block
  sending_queue : List Transaction
  message_queue : List Transaction
  deriving Repr

/-- `receive_transfer_request` (`client.py` lines 356-366): append the incoming
transaction to `message_queue`, stable-sort it by Lamport order, and set the
clock to `max(clock, tx.sender_logic_clock) + 1`. -/
def receive_transfer_request (s : ClientState) (tx : Transaction) :
    ClientState :=
  { s with
    message_queue := sortTxs (s.message_queue ++ [tx])
    logic_clock := max s.logic_clock tx.sender_logic_clock + 1 }

/-- `receive_transfer_finish` (`client.py` lines 369-380): remove the first
transaction equal to `tx` from `message_queue` when one is present, and append
`tx` to the local ledger. The logical clock is not touched by this handler. -/
def receive_transfer_finish (sha : Transaction → String → String)
    (s : ClientState) (tx : Transaction) : ClientState :=
  { s with
    message_queue := eraseFirstTx s.message_queue tx
    chain := add_transaction sha tx s.chain }

lemma eraseFirstTx_of_not_mem (tx : Transaction) :
    ∀ l : List Transaction, (∀ u ∈ l, txEqB u tx = false) →
      eraseFirstTx l tx = l := by
  intro l
  induction l with
  | nil => intro _; rfl
  | cons x xs ih =>
    intro h
    have hx : txEqB x tx = false := h x (List.mem_cons_self x xs)
    simp only [eraseFirstTx, hx, if_neg Bool.false_ne_true]
    rw [ih fun u hu => h u (List.mem_cons_of_mem x hu)]

lemma eraseFirstTx_append (tx : Transaction) :
    ∀ (pre : List Transaction) (t : Transaction) (post : List Transaction),
      (∀ u ∈ pre, txEqB u tx = false) → txEqB t tx = true →
      eraseFirstTx (pre ++ t :: post) tx = pre ++ post := by
  intro pre
  induction pre with
  | nil =>
    intro t post _ ht
    simp [eraseFirstTx, ht]
  | cons x xs ih =>
    intro t post h ht
    have hx : txEqB x tx = false := h x (List.mem_cons_self x xs)
    simp only [List.cons_append, eraseFirstTx, hx, if_neg Bool.false_ne_true,
      List.append_eq]
    rw [ih t post (fun u hu => h u (List.mem_cons_of_mem x hu)) ht]

/-- Python `key in dict` on the other-clients map (first-match lookup on the
association list). -/
def containsKey (m : List (Int × String)) (k : Int) : Bool :=
  (m.find? (fun p => p.1 == k)).isSome

/-- `Client.transfer` (`client.py` lines 189-213) together with the local part
of `request_transaction` (lines 145-171). Rejects when the recipient is not a
known peer or the amount is negative; otherwise bumps the clock, builds a
PENDING transaction stamped with the new clock, appends it to `sending_queue`,
appends it to `message_queue` and stable-sorts that queue, posts the
transaction (still with `num_replies = 0`, as serialized at request-build
time) to every other client, and counts the successful replies into the single
shared transaction object sitting in both queues. `ts` stands for
`get_current_time()` and `replies` for the list of `result == success` flags of
the peer responses (the handler asserts every HTTP status is 200). The second
component lists the outgoing request messages. -/
def clientTransfer (s : ClientState) (rid : Int) (amt : ℚ) (ts : String)
    (replies : List Bool) : ClientState × List (String × Transaction) :=
  if containsKey s.other_clients rid = false then (s, [])
  else if amt < 0 then (s, [])
  else
    let clk := s.logic_clock + 1
    let tx0 : Transaction :=
      { sender_id := s.id, recipient_id := rid, amount := amt
        sender_logic_clock := clk, timestamp := ts
        status := "PENDING", num_replies := 0 }
    let tx1 : Transaction := { tx0 with num_replies := (replies.count true : Int) }
    ({ s with
        logic_clock := clk
        sending_queue := s.sending_queue ++ [tx1]
        message_queue := sortTxs (s.message_queue ++ [tx1]) },
     s.other_clients.map (fun p => (p.2 ++ "/transfer-request", tx0)))

/-- Messages that one tick of `process_message` sends out: the optional
`POST /transfer` to the bank server and the `POST /transfer-finish` release
to every other client. -/
structure TickOutput where
  serverTransfer : Option Transaction
  releases : List (String × Transaction)
  deriving DecidableEq, Repr

def noTickOutput : TickOutput := ⟨none, []⟩

/-- The commit gate, stated as the specification words it: both queues are
non-empty, the head of `sending_queue` equals the head of `message_queue`
under transaction equality, and that head's `num_replies` equals the current
number of other peers. -/
def commitEnabled (s : ClientState) : Bool :=
  match s.sending_queue.head?, s.message_queue.head? with
  | some hs, some hm =>
    txEqB hs hm && decide (hs.num_replies = (s.other_clients.length : Int))
  | _, _ => false

/-- `process_message` (`client.py` lines 321-353), the 10 Hz ticker body.
`bal` stands for the balance fetched with `client.balance(for_transfer=True)`
(which does not bump the clock). On the sufficient-balance path the
transaction is posted to the bank server before its status is mutated (hence
`serverTransfer` carries the un-finalized head) and the closing
`client.balance()` call increments the logical clock by one. Both branches
append the finalized transaction to the ledger, broadcast the release, pop the
head of `sending_queue` and remove the first equal entry of `message_queue`. -/
def process_message (sha : Transaction → String → String) (s : ClientState)
    (bal : ℚ) : ClientState × TickOutput :=
  match s.message_queue, s.sending_queue with
  | [], _ => (s, noTickOutput)
  | _ :: _, [] => (s, noTickOutput)
  | hm :: _, hs :: tl =>
    if txEqB hs hm && decide (hs.num_replies = (s.other_clients.length : Int)) then
      if bal < hs.amount then
        let fin : Transaction := { hs with status := "ABORT" }
        ({ s with
            chain := add_transaction sha fin s.chain
            sending_queue := tl
            message_queue := eraseFirstTx s.message_queue fin },
         ⟨none, s.other_clients.map (fun p => (p.2 ++ "/transfer-finish", fin))⟩)
      else
        let fin : Transaction := { hs with status := "SUCCESS" }
        ({ s with
            logic_clock := s.logic_clock + 1
            chain := add_transaction sha fin s.chain
            sending_queue := tl
            message_queue := eraseFirstTx s.message_queue fin },
         ⟨some hs, s.other_clients.map (fun p => (p.2 ++ "/transfer-finish", fin))⟩)
    else (s, noTickOutput)

/-- `Account` from `blockchain.py` as the bank server holds it. -/
structure Account where
  id : Int
  balance : ℚ
  recent_access_time : String
  deriving DecidableEq, Repr

/-- `BankServer` state (`server.py`): the account list, the recorded
transactions and the reachable-clients map. -/
structure ServerState where
  accounts : List Account
  transactions : List Transaction
  clients : List (Int × String)
  deriving Repr

/-- `BankServer._check_account_info`: asserts that accounts and clients have
the same cardinality and that account ids are pairwise distinct. -/
def checkAccountInfo (s : ServerState) : Bool :=
  decide (s.accounts.length = s.clients.length)
    && decide (s.accounts.map Account.id).Nodup

/-- Bodies the transfer endpoint can answer with. -/
inductive TransferResult where
  | success
  | fail (reason : String)
  deriving DecidableEq, Repr

/-- Exceptions the handlers can raise: a failed `assert` in
`_check_account_info`, or the `IndexError` of `[...][0]` on an empty
comprehension. -/
inductive HandlerErr where
  | assertionError
  | indexError
  deriving DecidableEq, Repr

/-- HTTP status of a handler outcome: FastAPI turns an unhandled exception
into a 500 Internal Server Error; none of the handlers ever raises an
`HTTPException`, so no 404 response is ever constructed. -/
def httpStatus {α : Type} : Except HandlerErr α → Nat
  | .error _ => 500
  | .ok _ => 200

/-- `BankServer.balance` (`server.py` lines 101-105): run the account-info
assertion, look up the first account with the requested id (`[...][0]` raises
`IndexError` when there is none), refresh its access time and return its
balance. `now` stands for `get_current_time()`. -/
def balanceEndpoint (s : ServerState) (cid : Int) (now : String) :
    Except HandlerErr ℚ × ServerState :=
  if checkAccountInfo s = false then (.error .assertionError, s)
  else
    match s.accounts.find? (fun a => a.id == cid) with
    | none => (.error .indexError, s)
    | some a =>
      (.ok a.balance,
       { s with accounts := s.accounts.map fun b =>
           if b.id == cid then { b with recent_access_time := now } else b })

/-- `BankServer.transfer` (`server.py` lines 128-155). The Python handler
resolves `sender` and `recipient` to the first matching account objects (an
unknown id raises `IndexError`), refreshes both access times, validates the
amount and the sender balance, and then mutates `sender.balance` and
`recipient.balance` in place. Because `_check_account_info` has already
asserted that ids are pairwise distinct, updating by id touches exactly the
looked-up accounts; and when `sender_id == recipient_id` the two Python names
alias one object, so the `-=`/`+=` pair nets to zero, which the aliasing
branch of the map mirrors. -/
def transferEndpoint (s : ServerState) (t : Transaction) (now : String) :
    Except HandlerErr TransferResult × ServerState :=
  if checkAccountInfo s = false then (.error .assertionError, s)
  else
    match s.accounts.find? (fun a => a.id == t.sender_id) with
    | none => (.error .indexError, s)
    | some snd =>
      match s.accounts.find? (fun a => a.id == t.recipient_id) with
      | none => (.error .indexError, s)
      | some _ =>
        let touched := s.accounts.map fun a =>
          if a.id == t.sender_id || a.id == t.recipient_id then
            { a with recent_access_time := now }
          else a
        if t.amount < 0 then
          (.ok (.fail "amount must be positive"), { s with accounts := touched })
        else if snd.balance < t.amount then
          (.ok (.fail "insufficient balance"), { s with accounts := touched })
        else
          (.ok .success,
           { s with
              accounts := touched.map fun a =>
                if a.id == t.sender_id && a.id == t.recipient_id then a
                else if a.id == t.sender_id then
                  { a with balance := a.balance - t.amount }
                else if a.id == t.recipient_id then
                  { a with balance := a.balance + t.amount }
                else a
              transactions := s.transactions ++ [t] })

/-- `BankServer.shutdown_client` (`server.py` lines 157-162): drop the client
from the reachable-clients map (`dict.pop(cid, None)`) and rebuild the account
list without the departing id. The constant `{result: success}` body is not
carried. -/
def exitEndpoint (s : ServerState) (cid : Int) : ServerState :=
  { s with
    clients := s.clients.filter fun p => !(p.1 == cid)
    accounts := s.accounts.filter fun a => !(a.id == cid) }

/-- The route table installed by `BankServer.__init__` (`server.py` lines
54-58), as (HTTP method, path) pairs. -/
def serverRoutes : List (String × String) :=
  [("GET", "/"), ("GET", "/register"), ("GET", "/balance/{client_id}"),
   ("POST", "/transfer"), ("GET", "/exit/{client_id}")]

/-- Total money held by the bank server's accounts. -/
def sumBalances (s : ServerState) : ℚ :=
  (s.accounts.map Account.balance).sum

/-- Unfolding of transaction equality into the five identity fields. -/
lemma txEqB_iff (a b : Transaction) :
    txEqB a b = true ↔
      a.sender_id = b.sender_id ∧ a.recipient_id = b.recipient_id
        ∧ a.amount = b.amount ∧ a.sender_logic_clock = b.sender_logic_clock
        ∧ a.timestamp = b.timestamp := by
  simp [txEqB, and_assoc]

/-- A concrete digest function used to evaluate the development on closed
inputs; every theorem below is quantified over the digest function. -/
def shaD : Transaction → String → String := fun _ _ => "d"

/-- A sample pending transaction as a peer would enqueue it. -/
def txPend : Transaction :=
  { sender_id := 1, recipient_id := 2, amount := 5, sender_logic_clock := 1
    timestamp := "t0", status := "PENDING", num_replies := 0 }

/-- The same transaction as broadcast in a release: finalized status and a
reply already counted, so it differs from `txPend` outside the identity
fields. -/
def txFin : Transaction := { txPend with status := "SUCCESS", num_replies := 1 }

/-- C3. After every `add_transaction` the chain is sorted ascending by the
Lamport order of its transactions (S), the head block's `previous_hash` is the
digest of the empty string (H2), and every non-head block's `previous_hash` is
the digest of its predecessor (H1) — for any digest function and any starting
chain. -/
theorem addTransaction_invariants (sha : Transaction → String → String)
    (tx : Transaction) (c : List Block) :
    List.Sorted blockLe (add_transaction sha tx c)
      ∧ linkOK sha (add_transaction sha tx c) = true := by
  unfold add_transaction resort_blocks
  cases hs : List.insertionSort blockLe (c ++ [⟨tx, EMPTY_SHA256⟩]) with
  | nil => exact ⟨List.sorted_nil, rfl⟩
  | cons h t =>
    refine ⟨?_, ?_⟩
    · have h1 : List.Sorted blockLe (h :: t) := by
        rw [← hs]
        exact List.sorted_insertionSort blockLe _
      rw [sorted_blocks_iff_map] at h1 ⊢
      simpa [relink_map_transaction] using h1
    · simp [linkOK, linkedFrom_relink]

/-- C2, counterexample. A peer with clock 0 that receives a release stamped
with clock 5 keeps clock 0; the claimed value max(0, 5) + 1 = 6 is not
reached, because `receive_transfer_finish` never touches the clock. -/
theorem releaseClock_cex :
    (receive_transfer_finish shaD ⟨1, 0, [], [], [], []⟩
        { txFin with sender_logic_clock := 5 }).logic_clock = 0
      ∧ max (0 : Int) 5 + 1 ≠ 0 := by
  exact ⟨rfl, by decide⟩

/-- C2, amended. The request handler follows the Lamport receive rule — the
clock becomes max(old, t) + 1 — but the release handler leaves the clock
unchanged. -/
theorem receiveClock_spec (sha : Transaction → String → String)
    (s : ClientState) (tx : Transaction) :
    (receive_transfer_request s tx).logic_clock
        = max s.logic_clock tx.sender_logic_clock + 1
      ∧ (receive_transfer_finish sha s tx).logic_clock = s.logic_clock :=
  ⟨rfl, rfl⟩

/-- C4. Handling a release for `tx` always appends `tx` to the local ledger;
if `message_queue` holds an entry equal to `tx` under five-field equality,
exactly the first such entry is removed; if none is, the queue is unchanged;
and a copy differing only in `status` and `num_replies` — such as the queued
PENDING copy — does count as equal. -/
theorem receiveTransferFinish_spec (sha : Transaction → String → String)
    (s : ClientState) (tx : Transaction) :
    (receive_transfer_finish sha s tx).chain = add_transaction sha tx s.chain
      ∧ (∀ pre t post, s.message_queue = pre ++ t :: post →
          (∀ u ∈ pre, txEqB u tx = false) → txEqB t tx = true →
          (receive_transfer_finish sha s tx).message_queue = pre ++ post)
      ∧ ((∀ u ∈ s.message_queue, txEqB u tx = false) →
          (receive_transfer_finish sha s tx).message_queue = s.message_queue)
      ∧ (∀ st n, txEqB { tx with status := st, num_replies := n } tx = true) := by
  refine ⟨rfl, ?_, ?_, ?_⟩
  · intro pre t post hq hpre ht
    show eraseFirstTx s.message_queue tx = pre ++ post
    rw [hq]
    exact eraseFirstTx_append tx pre t post hpre ht
  · intro h
    show eraseFirstTx s.message_queue tx = s.message_queue
    exact eraseFirstTx_of_not_mem tx _ h
  · intro st n
    simp [txEqB]

/-- C4, witness: a peer whose queue holds the PENDING copy removes it when the
finalized release arrives, and ledgers the released transaction. -/
theorem receiveTransferFinish_spec_witness :
    (receive_transfer_finish shaD ⟨2, 3, [], [], [], [txPend]⟩ txFin).message_queue = []
      ∧ (receive_transfer_finish shaD ⟨2, 3, [], [], [], [txPend]⟩ txFin).chain
          = add_transaction shaD txFin [] := by
  have h := receiveTransferFinish_spec shaD ⟨2, 3, [], [], [], [txPend]⟩ txFin
  exact ⟨by simpa using h.2.1 [] txPend [] rfl (by simp) (by decide), h.1⟩

/-- The demo account and registry state used by the server-side witnesses. -/
def acct1 : Account := { id := 1, balance := 10, recent_access_time := "t0" }

def srv1 : ServerState :=
  { accounts := [acct1], transactions := [], clients := [(1, "http://h:8001")] }

/-- C5, counterexample. In a registry holding exactly the account of client 1,
`exit(1)` deletes that account: the account set afterwards has no entry with
id 1, contradicting "the Account is retained". -/
theorem exitRetainsAccount_cex :
    srv1.accounts.filter (fun a => a.id == 1) = [acct1]
      ∧ (exitEndpoint srv1 1).accounts.filter (fun a => a.id == 1) = [] := by
  decide

/-- C5, amended. `exit(client_id)` removes the departing client's entry from
the reachable-clients map AND removes its account: afterwards the accounts are
exactly the previous ones with a different id, the clients map entries are
exactly the previous ones with a different key, and the transaction log is
untouched. -/
theorem exitEndpoint_spec (s : ServerState) (cid : Int) :
    (∀ a : Account, a ∈ (exitEndpoint s cid).accounts
        ↔ a ∈ s.accounts ∧ a.id ≠ cid)
      ∧ (∀ p : Int × String, p ∈ (exitEndpoint s cid).clients
          ↔ p ∈ s.clients ∧ p.1 ≠ cid)
      ∧ (exitEndpoint s cid).transactions = s.transactions := by
  refine ⟨?_, ?_, rfl⟩
  · intro a
    simp [exitEndpoint, List.mem_filter]
  · intro p
    simp [exitEndpoint, List.mem_filter]

/-- C6. The route table of `BankServer.__init__` registers no
`/register-confirm` endpoint at all, even though `register_client` in
`client.py` posts to it: the Registry cannot store the client-reported
address. -/
theorem registerConfirm_missing :
    serverRoutes.contains ("POST", "/register-confirm") = false
      ∧ serverRoutes.all (fun r => !(r.2 == "/register-confirm")) = true := by
  decide

/-- C9. `Client.transfer` with an unknown recipient (which covers
self-transfers, the peer's own id never being in `other_clients`) or a
negative amount returns before any mutation: the whole client state — clock,
`sending_queue`, `message_queue`, ledger — is unchanged and nothing is
broadcast. -/
theorem clientTransfer_reject (s : ClientState) (rid : Int) (amt : ℚ)
    (ts : String) (replies : List Bool)
    (h : containsKey s.other_clients rid = false ∨ amt < 0) :
    clientTransfer s rid amt ts replies = (s, []) := by
  cases hb : containsKey s.other_clients rid with
  | false => simp [clientTransfer, hb]
  | true =>
    rcases h with h | h
    · rw [hb] at h
      cases h
    · simp [clientTransfer, hb, h]

/-- C9, witness: a peer that only knows peer 2 rejects a transfer to peer 3
without any state change or broadcast. -/
theorem clientTransfer_reject_witness :
    (containsKey [(2, "http://h:8002")] 3 = false ∨ (5 : ℚ) < 0)
      ∧ clientTransfer ⟨1, 7, [(2, "http://h:8002")], [], [], []⟩ 3 5 "ts" []
          = (⟨1, 7, [(2, "http://h:8002")], [], [], []⟩, []) :=
  ⟨Or.inl (by decide),
    clientTransfer_reject ⟨1, 7, [(2, "http://h:8002")], [], [], []⟩ 3 5 "ts" []
      (Or.inl (by decide))⟩

/-- C7, counterexample. With only account 1 registered, asking the balance of
client 2 — and a transfer whose sender id 3 is unknown — raises `IndexError`,
which FastAPI surfaces as HTTP 500, not as the claimed 404. -/
theorem unknownAccount_cex :
    httpStatus (balanceEndpoint srv1 2 "t1").1 = 500
      ∧ httpStatus (transferEndpoint srv1
          { sender_id := 3, recipient_id := 1, amount := 1
            sender_logic_clock := 0, timestamp := "ts"
            status := "PENDING", num_replies := 0 } "t1").1 = 500
      ∧ (500 : Nat) ≠ 404 := by
  decide

/-- C7, amended. For an id absent from the account set, `balance` raises an
uncaught `IndexError` (HTTP 500, not 404), and `transfer` does the same when
its sender or recipient id is unknown; in every such case the server state —
in particular every account balance — is unchanged. -/
theorem unknownAccount_spec (s : ServerState) (cid : Int) (t : Transaction)
    (now : String) (hchk : checkAccountInfo s = true) :
    (s.accounts.find? (fun a => a.id == cid) = none →
      balanceEndpoint s cid now = (.error .indexError, s)
        ∧ httpStatus (balanceEndpoint s cid now).1 = 500)
      ∧ (s.accounts.find? (fun a => a.id == t.sender_id) = none
            ∨ s.accounts.find? (fun a => a.id == t.recipient_id) = none →
          transferEndpoint s t now = (.error .indexError, s)
            ∧ httpStatus (transferEndpoint s t now).1 = 500) := by
  constructor
  · intro hnone
    have heq : balanceEndpoint s cid now = (.error .indexError, s) := by
      simp [balanceEndpoint, hchk, hnone]
    exact ⟨heq, by rw [heq]; rfl⟩
  · intro hnone
    have heq : transferEndpoint s t now = (.error .indexError, s) := by
      rcases hnone with h | h
      · simp [transferEndpoint, hchk, h]
      · cases hs : s.accounts.find? (fun a => a.id == t.sender_id) with
        | none => simp [transferEndpoint, hchk, hs]
        | some snd => simp [transferEndpoint, hchk, hs, h]
    exact ⟨heq, by rw [heq]; rfl⟩

/-- C7, witness: the amended statement applied to the one-account registry,
for the unknown balance id 2 and a transfer from the unknown sender 3. -/
theorem unknownAccount_spec_witness :
    checkAccountInfo srv1 = true
      ∧ srv1.accounts.find? (fun a => a.id == 2) = none
      ∧ balanceEndpoint srv1 2 "t1" = (.error .indexError, srv1)
      ∧ httpStatus (balanceEndpoint srv1 2 "t1").1 = 500 := by
  have h := (unknownAccount_spec srv1 2
    { sender_id := 3, recipient_id := 1, amount := 1, sender_logic_clock := 0
      timestamp := "ts", status := "PENDING", num_replies := 0 } "t1"
    (by decide)).1 (by decide)
  exact ⟨by decide, by decide, h.1, h.2⟩

lemma countP_congrB {α : Type} (p q : α → Bool) :
    ∀ l : List α, (∀ a ∈ l, p a = q a) → l.countP p = l.countP q := by
  intro l
  induction l with
  | nil => intro _; rfl
  | cons a t ih =>
    intro h
    rw [List.countP_cons, List.countP_cons, h a (List.mem_cons_self a t),
      ih fun b hb => h b (List.mem_cons_of_mem a hb)]

lemma map_balance_of_preserving (f : Account → Account)
    (hf : ∀ a, (f a).balance = a.balance) (l : List Account) :
    (l.map f).map Account.balance = l.map Account.balance := by
  rw [List.map_map]
  exact List.map_congr_left fun a _ => hf a

/-- When the two ids differ, matching one id already excludes the other. -/
lemma and_not_other (x y : Int) (hxy : x ≠ y) (a : Account) :
    (a.id == x && !(a.id == y)) = (a.id == x) := by
  by_cases h : a.id = x
  · have hn : ¬a.id = y := fun hc => hxy (by omega)
    simp [h, hn, hxy]
  · simp [h]

/-- Effect of the balance-mutation map of the transfer endpoint on the total:
each sender-only match loses the amount, each recipient-only match gains it,
and an aliased match (both ids at once) is untouched. -/
lemma sum_applyTransfer (sid rid : Int) (amt : ℚ) :
    ∀ l : List Account,
      ((l.map fun a =>
          if a.id == sid && a.id == rid then a
          else if a.id == sid then { a with balance := a.balance - amt }
          else if a.id == rid then { a with balance := a.balance + amt }
          else a).map Account.balance).sum
        = (l.map Account.balance).sum
          + amt * (((l.countP fun a => a.id == rid && !(a.id == sid)) : ℚ)
              - ((l.countP fun a => a.id == sid && !(a.id == rid)) : ℚ)) := by
  intro l
  induction l with
  | nil => simp
  | cons a t ih =>
    simp only [List.map_cons, List.sum_cons, List.countP_cons, ih]
    by_cases h1 : a.id = sid <;> by_cases h2 : a.id = rid
    · have hsr : sid = rid := by omega
      subst hsr
      simp [h1]
    · have hne : ¬sid = rid := fun hc => h2 (hc ▸ h1)
      simp [h1, h2, hne]
      ring
    · have hne : ¬rid = sid := fun hc => h1 (hc ▸ h2)
      simp [h1, h2, hne]
      ring
    · simp [h1, h2]
      ring

/-- Under pairwise-distinct account ids, the id of a present account is
matched by exactly one list entry. -/
lemma countP_id_eq_one (x : Int) :
    ∀ l : List Account, (l.map Account.id).Nodup →
      ∀ a ∈ l, a.id = x → (l.countP fun b => b.id == x) = 1 := by
  intro l
  induction l with
  | nil =>
    intro _ a ha
    cases ha
  | cons b t ih =>
    intro hnd a ha hx
    rw [List.map_cons, List.nodup_cons] at hnd
    obtain ⟨hb, hnd'⟩ := hnd
    rcases List.mem_cons.mp ha with rfl | hat
    · have ht0 : t.countP (fun c => c.id == x) = 0 := by
        rw [List.countP_eq_zero]
        intro c hc
        simp only [beq_iff_eq]
        intro hcx
        exact hb (hx ▸ hcx ▸ List.mem_map_of_mem Account.id hc)
      simp [List.countP_cons, ht0, hx]
    · have hbx : ¬(b.id = x) := by
        intro hbid
        refine hb ?_
        rw [hbid, ← hx]
        exact List.mem_map_of_mem Account.id hat
      rw [List.countP_cons]
      simp [hbx, ih hnd' a hat hx]

/-- One call of the transfer endpoint — whatever its outcome — leaves the
total of all account balances unchanged. -/
lemma sumBalances_transfer (s : ServerState) (t : Transaction) (now : String) :
    sumBalances (transferEndpoint s t now).2 = sumBalances s := by
  cases hchk : checkAccountInfo s with
  | false => simp [transferEndpoint, hchk]
  | true =>
    have hnd : (s.accounts.map Account.id).Nodup := by
      have h := hchk
      simp only [checkAccountInfo, Bool.and_eq_true, decide_eq_true_eq] at h
      exact h.2
    cases hsnd : s.accounts.find? (fun a => a.id == t.sender_id) with
    | none => simp [transferEndpoint, hchk, hsnd]
    | some snd =>
      cases hrcp : s.accounts.find? (fun a => a.id == t.recipient_id) with
      | none => simp [transferEndpoint, hchk, hsnd, hrcp]
      | some rcp =>
        have htouch : ∀ a : Account,
            ((fun a : Account =>
              if a.id == t.sender_id || a.id == t.recipient_id then
                { a with recent_access_time := now } else a) a).balance
              = a.balance := by
          intro a
          by_cases h : (a.id == t.sender_id || a.id == t.recipient_id) = true <;>
            simp [h]
        have htouchId : ∀ a : Account,
            ((fun a : Account =>
              if a.id == t.sender_id || a.id == t.recipient_id then
                { a with recent_access_time := now } else a) a).id = a.id := by
          intro a
          by_cases h : (a.id == t.sender_id || a.id == t.recipient_id) = true <;>
            simp [h]
        by_cases hneg : t.amount < 0
        · have hstate : (transferEndpoint s t now).2
              = { s with accounts := s.accounts.map fun a =>
                  if a.id == t.sender_id || a.id == t.recipient_id then
                    { a with recent_access_time := now } else a } := by
            simp [transferEndpoint, hchk, hsnd, hrcp, hneg]
          rw [hstate]
          show ((s.accounts.map _).map Account.balance).sum = sumBalances s
          rw [map_balance_of_preserving _ htouch]
          rfl
        · by_cases hins : snd.balance < t.amount
          · have hstate : (transferEndpoint s t now).2
                = { s with accounts := s.accounts.map fun a =>
                    if a.id == t.sender_id || a.id == t.recipient_id then
                      { a with recent_access_time := now } else a } := by
              simp [transferEndpoint, hchk, hsnd, hrcp, hneg, hins]
            rw [hstate]
            show ((s.accounts.map _).map Account.balance).sum = sumBalances s
            rw [map_balance_of_preserving _ htouch]
            rfl
          · have hsnd_mem := List.mem_of_find?_eq_some hsnd
            have hsnd_id : snd.id = t.sender_id := by
              have h := List.find?_some hsnd
              simpa using h
            have hrcp_mem := List.mem_of_find?_eq_some hrcp
            have hrcp_id : rcp.id = t.recipient_id := by
              have h := List.find?_some hrcp
              simpa using h
            have hstate : (transferEndpoint s t now).2
                = { s with
                    accounts := ((s.accounts.map fun a =>
                        if a.id == t.sender_id || a.id == t.recipient_id then
                          { a with recent_access_time := now } else a).map fun a =>
                      if a.id == t.sender_id && a.id == t.recipient_id then a
                      else if a.id == t.sender_id then
                        { a with balance := a.balance - t.amount }
                      else if a.id == t.recipient_id then
                        { a with balance := a.balance + t.amount }
                      else a)
                    transactions := s.transactions ++ [t] } := by
              simp [transferEndpoint, hchk, hsnd, hrcp, hneg, hins]
            rw [hstate]
            show (((s.accounts.map _).map _).map Account.balance).sum = sumBalances s
            rw [sum_applyTransfer, map_balance_of_preserving _ htouch]
            have hc1 : ((s.accounts.map fun a =>
                  if a.id == t.sender_id || a.id == t.recipient_id then
                    { a with recent_access_time := now } else a).countP
                  fun a => a.id == t.recipient_id && !(a.id == t.sender_id))
                = s.accounts.countP
                    fun a => a.id == t.recipient_id && !(a.id == t.sender_id) := by
              rw [List.countP_map]
              refine countP_congrB _ _ _ fun a _ => ?_
              simp only [Function.comp_apply, htouchId a]
            have hc2 : ((s.accounts.map fun a =>
                  if a.id == t.sender_id || a.id == t.recipient_id then
                    { a with recent_access_time := now } else a).countP
                  fun a => a.id == t.sender_id && !(a.id == t.recipient_id))
                = s.accounts.countP
                    fun a => a.id == t.sender_id && !(a.id == t.recipient_id) := by
              rw [List.countP_map]
              refine countP_congrB _ _ _ fun a _ => ?_
              simp only [Function.comp_apply, htouchId a]
            rw [hc1, hc2]
            by_cases hsame : t.sender_id = t.recipient_id
            · have e1 : (s.accounts.countP
                  fun a => a.id == t.recipient_id && !(a.id == t.sender_id)) = 0 := by
                rw [List.countP_eq_zero]
                intro a _
                rw [hsame]
                simp
              have e2 : (s.accounts.countP
                  fun a => a.id == t.sender_id && !(a.id == t.recipient_id)) = 0 := by
                rw [List.countP_eq_zero]
                intro a _
                rw [hsame]
                simp
              rw [e1, e2]
              show (s.accounts.map Account.balance).sum
                  + t.amount * (((0 : ℕ) : ℚ) - ((0 : ℕ) : ℚ)) = sumBalances s
              push_cast
              show (s.accounts.map Account.balance).sum + t.amount * (0 - 0)
                  = sumBalances s
              rw [show (0 - 0 : ℚ) = 0 by ring, mul_zero, add_zero]
              rfl
            · have e1 : (s.accounts.countP
                    fun a => a.id == t.recipient_id && !(a.id == t.sender_id))
                  = s.accounts.countP fun a => a.id == t.recipient_id :=
                countP_congrB _ _ _ fun a _ =>
                  and_not_other t.recipient_id t.sender_id
                    (fun hc => hsame hc.symm) a
              have e2 : (s.accounts.countP
                    fun a => a.id == t.sender_id && !(a.id == t.recipient_id))
                  = s.accounts.countP fun a => a.id == t.sender_id :=
                countP_congrB _ _ _ fun a _ =>
                  and_not_other t.sender_id t.recipient_id hsame a
              rw [e1, e2,
                countP_id_eq_one t.recipient_id s.accounts hnd rcp hrcp_mem hrcp_id,
                countP_id_eq_one t.sender_id s.accounts hnd snd hsnd_mem hsnd_id]
              show (s.accounts.map Account.balance).sum
                  + t.amount * (((1 : ℕ) : ℚ) - ((1 : ℕ) : ℚ)) = sumBalances s
              push_cast
              rw [show ((1 : ℚ) - 1) = 0 by ring, mul_zero, add_zero]
              rfl


/-- C8. Over any sequence of transfer calls — in particular over every
sequence answered with success, and including self-transfers, where sender and
recipient alias the same account — the sum of all account balances at the
registry is unchanged. -/
theorem transferConservation (s : ServerState)
    (calls : List (Transaction × String)) :
    sumBalances (calls.foldl (fun st c => (transferEndpoint st c.1 c.2).2) s)
      = sumBalances s := by
  induction calls generalizing s with
  | nil => rfl
  | cons c cs ih => rw [List.foldl_cons, ih, sumBalances_transfer]

/-- C10. A transfer whose sender and recipient are the same registered
account, with 0 ≤ amount ≤ that account's balance, is answered with success
and leaves every balance — including the doubly-named account's — exactly as
it was: the `-=` and `+=` hit the same aliased account object. -/
theorem selfTransfer_success (s : ServerState) (t : Transaction) (now : String)
    (acct : Account) (hchk : checkAccountInfo s = true)
    (hself : t.recipient_id = t.sender_id)
    (hfind : s.accounts.find? (fun a => a.id == t.sender_id) = some acct)
    (h0 : 0 ≤ t.amount) (hle : t.amount ≤ acct.balance) :
    (transferEndpoint s t now).1 = .ok .success
      ∧ (transferEndpoint s t now).2.accounts.map Account.balance
          = s.accounts.map Account.balance := by
  have hneg : ¬t.amount < 0 := not_lt.mpr h0
  have hins : ¬acct.balance < t.amount := not_lt.mpr hle
  have hfind2 : s.accounts.find? (fun a => a.id == t.recipient_id) = some acct := by
    rw [hself]
    exact hfind
  constructor
  · simp [transferEndpoint, hchk, hfind, hfind2, hneg, hins]
  · have htouch : ∀ a : Account,
        ((fun a : Account =>
          if a.id == t.sender_id || a.id == t.recipient_id then
            { a with recent_access_time := now } else a) a).balance
          = a.balance := by
      intro a
      by_cases h : (a.id == t.sender_id || a.id == t.recipient_id) = true <;>
        simp [h]
    have hstate : (transferEndpoint s t now).2
        = { s with
            accounts := ((s.accounts.map fun a =>
                if a.id == t.sender_id || a.id == t.recipient_id then
                  { a with recent_access_time := now } else a).map fun a =>
              if a.id == t.sender_id && a.id == t.recipient_id then a
              else if a.id == t.sender_id then
                { a with balance := a.balance - t.amount }
              else if a.id == t.recipient_id then
                { a with balance := a.balance + t.amount }
              else a)
            transactions := s.transactions ++ [t] } := by
      simp [transferEndpoint, hchk, hfind, hfind2, hneg, hins]
    rw [hstate]
    have hg : ∀ a : Account,
        (if a.id == t.sender_id && a.id == t.recipient_id then a
          else if a.id == t.sender_id then
            { a with balance := a.balance - t.amount }
          else if a.id == t.recipient_id then
            { a with balance := a.balance + t.amount }
          else a) = a := by
      intro a
      rw [hself]
      by_cases h : a.id = t.sender_id <;> simp [h]
    have hid : ((s.accounts.map fun a =>
          if a.id == t.sender_id || a.id == t.recipient_id then
            { a with recent_access_time := now } else a).map fun a =>
        if a.id == t.sender_id && a.id == t.recipient_id then a
        else if a.id == t.sender_id then
          { a with balance := a.balance - t.amount }
        else if a.id == t.recipient_id then
          { a with balance := a.balance + t.amount }
        else a)
        = s.accounts.map fun a =>
            if a.id == t.sender_id || a.id == t.recipient_id then
              { a with recent_access_time := now } else a := by
      rw [List.map_congr_left fun a _ => hg a]
      exact List.map_id _
    show ((_ : List Account).map Account.balance) = _
    rw [hid]
    exact map_balance_of_preserving _ htouch s.accounts

/-- A self-transfer payload against the demo registry. -/
def txSelf : Transaction :=
  { sender_id := 1, recipient_id := 1, amount := 4, sender_logic_clock := 0
    timestamp := "ts", status := "PENDING", num_replies := 0 }

/-- C10, witness: client 1 (balance 10) transferring 4 to itself gets success
and the balance column is untouched. -/
theorem selfTransfer_success_witness :
    checkAccountInfo srv1 = true
      ∧ txSelf.recipient_id = txSelf.sender_id
      ∧ srv1.accounts.find? (fun a => a.id == txSelf.sender_id) = some acct1
      ∧ (0 : ℚ) ≤ txSelf.amount
      ∧ txSelf.amount ≤ acct1.balance
      ∧ (transferEndpoint srv1 txSelf "t1").1 = .ok .success
      ∧ (transferEndpoint srv1 txSelf "t1").2.accounts.map Account.balance
          = srv1.accounts.map Account.balance := by
  have h := selfTransfer_success srv1 txSelf "t1" acct1 (by decide) (by decide)
    (by decide) (by decide) (by decide)
  exact ⟨by decide, by decide, by decide, by decide, by decide, h.1, h.2⟩

/-- C1. One tick of the ticker commits exactly under the gate predicate: when
the gate is closed the tick is a complete no-op (no state change, no message);
when it is open, the head transaction of `sending_queue` is finalized by the
balance check (ABORT below the amount, SUCCESS otherwise), appended to the
ledger, released to every other peer, posted to the bank server exactly on the
sufficient-balance path, and removed from the head of both queues. -/
theorem processMessage_spec (sha : Transaction → String → String)
    (s : ClientState) (bal : ℚ) :
    (commitEnabled s = false → process_message sha s bal = (s, noTickOutput))
      ∧ (commitEnabled s = true →
          ∃ hs tl, s.sending_queue = hs :: tl
            ∧ (process_message sha s bal).1.chain
                = add_transaction sha
                    { hs with status := if bal < hs.amount then "ABORT" else "SUCCESS" }
                    s.chain
            ∧ (process_message sha s bal).1.sending_queue = tl
            ∧ (process_message sha s bal).1.message_queue = s.message_queue.tail
            ∧ (process_message sha s bal).2.releases
                = s.other_clients.map (fun p => (p.2 ++ "/transfer-finish",
                    { hs with status := if bal < hs.amount then "ABORT" else "SUCCESS" }))
            ∧ (process_message sha s bal).2.serverTransfer
                = (if bal < hs.amount then none else some hs)) := by
  obtain ⟨cid, clk, oc, ch, sq, mq⟩ := s
  cases mq with
  | nil =>
    cases sq with
    | nil => exact ⟨fun _ => rfl, fun h => by cases h⟩
    | cons hs tl => exact ⟨fun _ => rfl, fun h => by cases h⟩
  | cons hm mt =>
    cases sq with
    | nil => exact ⟨fun _ => rfl, fun h => by cases h⟩
    | cons hs tl =>
      have hce : commitEnabled ⟨cid, clk, oc, ch, hs :: tl, hm :: mt⟩
          = (txEqB hs hm && decide (hs.num_replies = (oc.length : Int))) := rfl
      cases hg : txEqB hs hm && decide (hs.num_replies = (oc.length : Int)) with
      | false =>
        refine ⟨fun _ => ?_, fun h => ?_⟩
        · show (if txEqB hs hm && decide (hs.num_replies = (oc.length : Int))
              then _ else _) = _
          rw [hg]
          simp
        · rw [hce] at h
          rw [h] at hg
          cases hg
      | true =>
        refine ⟨fun h => ?_, fun _ => ?_⟩
        · rw [hce] at h
          rw [h] at hg
          cases hg
        · refine ⟨hs, tl, rfl, ?_⟩
          have htxeq : txEqB hs hm = true := (Bool.and_eq_true _ _ |>.mp hg).1
          have hmEq : ∀ st : String, txEqB hm { hs with status := st } = true := by
            intro st
            rw [txEqB_iff] at htxeq ⊢
            exact ⟨htxeq.1.symm, htxeq.2.1.symm, htxeq.2.2.1.symm,
              htxeq.2.2.2.1.symm, htxeq.2.2.2.2.symm⟩
          by_cases hb : bal < hs.amount
          · refine ⟨?_, ?_, ?_, ?_, ?_⟩ <;>
              simp [process_message, hg, hb, eraseFirstTx, hmEq]
          · refine ⟨?_, ?_, ?_, ?_, ?_⟩ <;>
              simp [process_message, hg, hb, eraseFirstTx, hmEq]

/-- The demo peer state in which the commit gate is open: no other peers, the
pending transaction heads both queues with all (zero) replies received. -/
def sCommit : ClientState :=
  { id := 1, logic_clock := 1, other_clients := [], chain := []
    sending_queue := [txPend], message_queue := [txPend] }

/-- C1, witness: with the gate open and a sufficient balance, the tick drains
both queues and posts the head transaction to the bank server. -/
theorem processMessage_spec_witness :
    commitEnabled sCommit = true
      ∧ (process_message shaD sCommit 10).1.sending_queue = []
      ∧ (process_message shaD sCommit 10).2.serverTransfer = some txPend := by
  obtain ⟨hs, tl, hq, hch, hsend, hmsg, hrel, hsrv⟩ :=
    (processMessage_spec shaD sCommit 10).2 (by decide)
  have hq' : txPend = hs ∧ [] = tl := by
    have : [txPend] = hs :: tl := hq
    exact ⟨List.head_eq_of_cons_eq this.symm |>.symm,
      List.tail_eq_of_cons_eq this.symm |>.symm⟩
  obtain ⟨h1, h2⟩ := hq'
  subst h1
  subst h2
  refine ⟨by decide, hsend, ?_⟩
  rw [hsrv]
  decide

end LamportLedger
